import Mathlib

/-!
Formal model of the Freescale eDMA driver core (drivers/dma/fsl-edma.c).

The development is a shallow embedding: machine integers are `Nat` with
explicit `% 2^w` at the points where the C code narrows a value, the
little-endian wire format of a TCD is modelled as lists of byte values,
and the per-channel state machine is explicit state passing over a
channel record.  Fallible code (descriptor preparation, the completion
interrupt handler, which dereferences the active-descriptor pointer)
returns `Option`.
-/

/-- Byte swap of a 16-bit value, as the CPU performs it on a big-endian
host when converting to or from a little-endian storage value. -/
def swab16 (v : Nat) : Nat :=
  256 * (v % 256) + v / 256 % 256

/-- Byte swap of a 32-bit value. -/
def swab32 (v : Nat) : Nat :=
  16777216 * (v % 256) + 65536 * (v / 256 % 256) + 256 * (v / 65536 % 256)
    + v / 16777216 % 256

/-- Bytes of a 16-bit CPU value as laid out in host memory: most
significant byte first on a big-endian host, least significant byte
first otherwise. -/
def storeBytes16 (hostBE : Bool) (v : Nat) : List Nat :=
  if hostBE then [v / 256 % 256, v % 256] else [v % 256, v / 256 % 256]

/-- Bytes of a 32-bit CPU value as laid out in host memory. -/
def storeBytes32 (hostBE : Bool) (v : Nat) : List Nat :=
  if hostBE then
    [v / 16777216 % 256, v / 65536 % 256, v / 256 % 256, v % 256]
  else
    [v % 256, v / 256 % 256, v / 65536 % 256, v / 16777216 % 256]

/-- CPU value obtained by loading two bytes from host memory. -/
def loadBytes16 (hostBE : Bool) (bs : List Nat) : Nat :=
  if hostBE then 256 * bs.getD 0 0 + bs.getD 1 0
  else bs.getD 0 0 + 256 * bs.getD 1 0

/-- CPU value obtained by loading four bytes from host memory. -/
def loadBytes32 (hostBE : Bool) (bs : List Nat) : Nat :=
  if hostBE then
    16777216 * bs.getD 0 0 + 65536 * bs.getD 1 0 + 256 * bs.getD 2 0 + bs.getD 3 0
  else
    bs.getD 0 0 + 256 * bs.getD 1 0 + 65536 * bs.getD 2 0 + 16777216 * bs.getD 3 0

/-- Linux `cpu_to_le16`: the in-memory bytes of a `__le16` field holding
CPU value `v`.  On a big-endian host the CPU value is byte-swapped before
it is stored in host order; on a little-endian host it is stored as is. -/
def cpu_to_le16 (hostBE : Bool) (v : Nat) : List Nat :=
  storeBytes16 hostBE (if hostBE then swab16 v else v)

/-- Linux `cpu_to_le32`. -/
def cpu_to_le32 (hostBE : Bool) (v : Nat) : List Nat :=
  storeBytes32 hostBE (if hostBE then swab32 v else v)

/-- Linux `le16_to_cpu`: load the two field bytes in host order, then
byte-swap on a big-endian host. -/
def le16_to_cpu (hostBE : Bool) (bs : List Nat) : Nat :=
  if hostBE then swab16 (loadBytes16 hostBE bs) else loadBytes16 hostBE bs

/-- Linux `le32_to_cpu`. -/
def le32_to_cpu (hostBE : Bool) (bs : List Nat) : Nat :=
  if hostBE then swab32 (loadBytes32 hostBE bs) else loadBytes32 hostBE bs

theorem swab16_lt (v : Nat) : swab16 v < 65536 := by
  unfold swab16; omega

theorem swab32_lt (v : Nat) : swab32 v < 4294967296 := by
  unfold swab32; omega

theorem swab16_swab16 (v : Nat) : swab16 (swab16 v) = v % 65536 := by
  unfold swab16
  generalize h0 : v % 256 = x0
  generalize h1 : v / 256 % 256 = x1
  have b0 : x0 < 256 := by omega
  have b1 : x1 < 256 := by omega
  have hX0 : (256 * x0 + x1) % 256 = x1 := by omega
  have hX1 : (256 * x0 + x1) / 256 % 256 = x0 := by omega
  rw [hX0, hX1]
  clear hX0 hX1
  omega

theorem swab32_swab32 (v : Nat) : swab32 (swab32 v) = v % 4294967296 := by
  unfold swab32
  generalize h0 : v % 256 = x0
  generalize h1 : v / 256 % 256 = x1
  generalize h2 : v / 65536 % 256 = x2
  generalize h3 : v / 16777216 % 256 = x3
  have b0 : x0 < 256 := by omega
  have b1 : x1 < 256 := by omega
  have b2 : x2 < 256 := by omega
  have b3 : x3 < 256 := by omega
  have hX0 : (16777216 * x0 + 65536 * x1 + 256 * x2 + x3) % 256 = x3 := by omega
  have hX1 : (16777216 * x0 + 65536 * x1 + 256 * x2 + x3) / 256 % 256 = x2 := by omega
  have hX2 : (16777216 * x0 + 65536 * x1 + 256 * x2 + x3) / 65536 % 256 = x1 := by omega
  have hX3 : (16777216 * x0 + 65536 * x1 + 256 * x2 + x3) / 16777216 % 256 = x0 := by
    omega
  rw [hX0, hX1, hX2, hX3]
  clear hX0 hX1 hX2 hX3
  omega

theorem loadBytes16_storeBytes16 (hostBE : Bool) (x : Nat) (h : x < 65536) :
    loadBytes16 hostBE (storeBytes16 hostBE x) = x := by
  cases hostBE <;> simp [loadBytes16, storeBytes16] <;> omega

theorem loadBytes32_storeBytes32 (hostBE : Bool) (x : Nat) (h : x < 4294967296) :
    loadBytes32 hostBE (storeBytes32 hostBE x) = x := by
  cases hostBE <;> simp [loadBytes32, storeBytes32] <;> omega

theorem le16_roundtrip (hostBE : Bool) (v : Nat) :
    le16_to_cpu hostBE (cpu_to_le16 hostBE v) = v % 65536 := by
  cases hostBE
  · simp [le16_to_cpu, cpu_to_le16, loadBytes16, storeBytes16]
    omega
  · simp only [le16_to_cpu, cpu_to_le16, if_true]
    rw [loadBytes16_storeBytes16 true (swab16 v) (swab16_lt v)]
    exact swab16_swab16 v

theorem le32_roundtrip (hostBE : Bool) (v : Nat) :
    le32_to_cpu hostBE (cpu_to_le32 hostBE v) = v % 4294967296 := by
  cases hostBE
  · simp [le32_to_cpu, cpu_to_le32, loadBytes32, storeBytes32]
    omega
  · simp only [le32_to_cpu, cpu_to_le32, if_true]
    rw [loadBytes32_storeBytes32 true (swab32 v) (swab32_lt v)]
    exact swab32_swab32 v

theorem cpu_to_le16_host_independent (hostBE : Bool) (v : Nat) :
    cpu_to_le16 hostBE v = [v % 256, v / 256 % 256] := by
  cases hostBE
  · rfl
  · simp only [cpu_to_le16, if_true, storeBytes16, swab16]
    generalize h0 : v % 256 = x0
    generalize h1 : v / 256 % 256 = x1
    have b0 : x0 < 256 := by omega
    have b1 : x1 < 256 := by omega
    have hX0 : (256 * x0 + x1) % 256 = x1 := by omega
    have hX1 : (256 * x0 + x1) / 256 % 256 = x0 := by omega
    rw [hX0, hX1]

theorem cpu_to_le32_host_independent (hostBE : Bool) (v : Nat) :
    cpu_to_le32 hostBE v =
      [v % 256, v / 256 % 256, v / 65536 % 256, v / 16777216 % 256] := by
  cases hostBE
  · rfl
  · simp only [cpu_to_le32, if_true, storeBytes32, swab32]
    generalize h0 : v % 256 = x0
    generalize h1 : v / 256 % 256 = x1
    generalize h2 : v / 65536 % 256 = x2
    generalize h3 : v / 16777216 % 256 = x3
    have b0 : x0 < 256 := by omega
    have b1 : x1 < 256 := by omega
    have b2 : x2 < 256 := by omega
    have b3 : x3 < 256 := by omega
    have hX0 : (16777216 * x0 + 65536 * x1 + 256 * x2 + x3) % 256 = x3 := by omega
    have hX1 : (16777216 * x0 + 65536 * x1 + 256 * x2 + x3) / 256 % 256 = x2 := by
      omega
    have hX2 : (16777216 * x0 + 65536 * x1 + 256 * x2 + x3) / 65536 % 256 = x1 := by
      omega
    have hX3 : (16777216 * x0 + 65536 * x1 + 256 * x2 + x3) / 16777216 % 256 = x0 := by
      omega
    rw [hX0, hX1, hX2, hX3]

/-- Direction of a DMA transfer (Linux enum dma_transfer_direction). -/
inductive DmaTransferDirection
  | mem_to_mem
  | mem_to_dev
  | dev_to_mem
  | dev_to_dev
  | trans_none
deriving DecidableEq, Repr

/-- Linux helper is_slave_direction(): true for the two slave directions. -/
def is_slave_direction (dir : DmaTransferDirection) : Bool :=
  match dir with
  | .mem_to_dev => true
  | .dev_to_mem => true
  | _ => false

/-- EDMA_TCD_CSR_INT_MAJOR, BIT(1). -/
def EDMA_TCD_CSR_INT_MAJOR : Nat := 2

/-- EDMA_TCD_CSR_D_REQ, BIT(3). -/
def EDMA_TCD_CSR_D_REQ : Nat := 8

/-- EDMA_TCD_CSR_E_SG, BIT(4). -/
def EDMA_TCD_CSR_E_SG : Nat := 16

/-- Value-level view of struct fsl_edma_tcd: each field holds the CPU
value that its little-endian wire bytes decode to. -/
structure FslEdmaTcd where
  saddr : Nat
  soff : Nat
  attr : Nat
  nbytes : Nat
  slast : Nat
  daddr : Nat
  doff : Nat
  citer : Nat
  dlast_sga : Nat
  csr : Nat
  biter : Nat
deriving DecidableEq, Repr

/-- Value-level fsl_edma_fill_tcd.  All parameters are the C function's
u32/u16 arguments (the callers narrow wider values before the call, which
the embedded callers reproduce with explicit `%`); the body masks CITER
and BITER with 0x7FFF per EDMA_TCD_CITER_CITER/EDMA_TCD_BITER_BITER and
assembles the CSR word from the three flag bits. -/
def fsl_edma_fill_tcd (src dst attr soff nbytes slast citer biter doff
    dlast_sga : Nat) (major_int disable_req enable_sg : Bool) : FslEdmaTcd :=
  { saddr := src
    daddr := dst
    attr := attr
    soff := soff
    nbytes := nbytes
    slast := slast
    citer := citer % 32768
    doff := doff
    dlast_sga := dlast_sga
    biter := biter % 32768
    csr := (if major_int then EDMA_TCD_CSR_INT_MAJOR else 0)
      ||| (if disable_req then EDMA_TCD_CSR_D_REQ else 0)
      ||| (if enable_sg then EDMA_TCD_CSR_E_SG else 0) }

/-- Logical TCD input tuple of the codec: the arguments of
fsl_edma_fill_tcd. -/
structure TcdFields where
  src : Nat
  dst : Nat
  attr : Nat
  soff : Nat
  nbytes : Nat
  slast : Nat
  citer : Nat
  biter : Nat
  doff : Nat
  dlast_sga : Nat
  major_int : Bool
  disable_req : Bool
  enable_sg : Bool
deriving DecidableEq, Repr

/-- Wire view of struct fsl_edma_tcd: every field is its stored byte
sequence (__le32 fields are 4 bytes, __le16 fields are 2 bytes). -/
structure FslEdmaTcdWire where
  saddr : List Nat
  soff : List Nat
  attr : List Nat
  nbytes : List Nat
  slast : List Nat
  daddr : List Nat
  doff : List Nat
  citer : List Nat
  dlast_sga : List Nat
  csr : List Nat
  biter : List Nat
deriving DecidableEq, Repr

/-- fsl_edma_fill_tcd at the wire level: the same computation, but
recording the bytes each cpu_to_le32/cpu_to_le16 store produces on a host
of the given endianness. -/
def fsl_edma_fill_tcd_wire (hostBE : Bool) (src dst attr soff nbytes slast
    citer biter doff dlast_sga : Nat)
    (major_int disable_req enable_sg : Bool) : FslEdmaTcdWire :=
  { saddr := cpu_to_le32 hostBE src
    daddr := cpu_to_le32 hostBE dst
    attr := cpu_to_le16 hostBE attr
    soff := cpu_to_le16 hostBE soff
    nbytes := cpu_to_le32 hostBE nbytes
    slast := cpu_to_le32 hostBE slast
    citer := cpu_to_le16 hostBE (citer % 32768)
    doff := cpu_to_le16 hostBE doff
    dlast_sga := cpu_to_le32 hostBE dlast_sga
    biter := cpu_to_le16 hostBE (biter % 32768)
    csr := cpu_to_le16 hostBE
      ((if major_int then EDMA_TCD_CSR_INT_MAJOR else 0)
        ||| (if disable_req then EDMA_TCD_CSR_D_REQ else 0)
        ||| (if enable_sg then EDMA_TCD_CSR_E_SG else 0)) }

/-- Decoder of the wire TCD back to the logical input tuple.  Fields are
read with le32_to_cpu/le16_to_cpu exactly as fsl_edma_set_tcd_regs and
fsl_edma_desc_residue read them; the three flags are the INT_MAJOR, D_REQ
and E_SG bits of the decoded CSR word that fsl_edma_fill_tcd assembled. -/
def decodeTcd (hostBE : Bool) (w : FslEdmaTcdWire) : TcdFields :=
  let csr := le16_to_cpu hostBE w.csr
  { src := le32_to_cpu hostBE w.saddr
    dst := le32_to_cpu hostBE w.daddr
    attr := le16_to_cpu hostBE w.attr
    soff := le16_to_cpu hostBE w.soff
    nbytes := le32_to_cpu hostBE w.nbytes
    slast := le32_to_cpu hostBE w.slast
    citer := le16_to_cpu hostBE w.citer
    biter := le16_to_cpu hostBE w.biter
    doff := le16_to_cpu hostBE w.doff
    dlast_sga := le32_to_cpu hostBE w.dlast_sga
    major_int := csr.testBit 1
    disable_req := csr.testBit 3
    enable_sg := csr.testBit 4 }

/-- C4, counterexample: the claim's round trip fails as stated.  With
citer = 0x8000 (a value of the codec's u16 citer argument), encoding masks
the major-loop count with 0x7FFF, so decoding returns 0 for citer and the
original logical tuple is not reproduced. -/
theorem tcd_roundtrip_citer_cex :
    decodeTcd false
        (fsl_edma_fill_tcd_wire false 0 0 0 0 0 0 32768 1 0 0 true false false)
      ≠ ({ src := 0, dst := 0, attr := 0, soff := 0, nbytes := 0, slast := 0,
           citer := 32768, biter := 1, doff := 0, dlast_sga := 0,
           major_int := true, disable_req := false,
           enable_sg := false } : TcdFields) := by
  decide

/-- C4, amended: for logical fields within their declared widths and with
citer and biter within the 15-bit major-loop field (the codec masks both
with 0x7FFF), encoding on a host of either endianness and decoding
reproduces the original fields exactly, and the wire bytes themselves are
identical on both hosts (fixed little-endian). -/
theorem tcd_encode_decode_roundtrip (hostBE : Bool)
    (src dst attr soff nbytes slast citer biter doff dlast_sga : Nat)
    (major_int disable_req enable_sg : Bool)
    (hsrc : src < 4294967296) (hdst : dst < 4294967296)
    (hat : attr < 65536) (hso : soff < 65536)
    (hnb : nbytes < 4294967296) (hsl : slast < 4294967296)
    (hci : citer < 32768) (hbi : biter < 32768)
    (hdo : doff < 65536) (hdl : dlast_sga < 4294967296) :
    decodeTcd hostBE (fsl_edma_fill_tcd_wire hostBE src dst attr soff nbytes
        slast citer biter doff dlast_sga major_int disable_req enable_sg)
      = { src := src, dst := dst, attr := attr, soff := soff, nbytes := nbytes,
          slast := slast, citer := citer, biter := biter, doff := doff,
          dlast_sga := dlast_sga, major_int := major_int,
          disable_req := disable_req, enable_sg := enable_sg }
    ∧ fsl_edma_fill_tcd_wire hostBE src dst attr soff nbytes slast citer biter
        doff dlast_sga major_int disable_req enable_sg
      = fsl_edma_fill_tcd_wire false src dst attr soff nbytes slast citer biter
        doff dlast_sga major_int disable_req enable_sg := by
  constructor
  · cases major_int <;> cases disable_req <;> cases enable_sg <;>
      · simp only [decodeTcd, fsl_edma_fill_tcd_wire, le16_roundtrip,
          le32_roundtrip, EDMA_TCD_CSR_INT_MAJOR, EDMA_TCD_CSR_D_REQ,
          EDMA_TCD_CSR_E_SG, TcdFields.mk.injEq]
        refine ⟨by omega, by omega, by omega, by omega, by omega, by omega,
          by omega, by omega, by omega, by omega, ?_, ?_, ?_⟩ <;> decide
  · simp only [fsl_edma_fill_tcd_wire, cpu_to_le16_host_independent,
      cpu_to_le32_host_independent]

/-- C4, witness: the amended round trip at a concrete big-endian-host
input. -/
theorem tcd_encode_decode_roundtrip_witness :
    decodeTcd true (fsl_edma_fill_tcd_wire true 4096 8192 513 4 16 0 3 3 0 256
        true true false)
      = { src := 4096, dst := 8192, attr := 513, soff := 4, nbytes := 16,
          slast := 0, citer := 3, biter := 3, doff := 0, dlast_sga := 256,
          major_int := true, disable_req := true, enable_sg := false } :=
  (tcd_encode_decode_roundtrip true 4096 8192 513 4 16 0 3 3 0 256
    true true false (by decide) (by decide) (by decide) (by decide) (by decide)
    (by decide) (by decide) (by decide) (by decide) (by decide)).1

/-- List read with default at a fixed index of a mapped range, used to
state per-entry descriptor properties. -/
theorem getD_map_range {α : Type} (f : Nat → α) (n i : Nat) (d : α) (h : i < n) :
    ((List.range n).map f).getD i d = f i := by
  show (((List.range n).map f).get? i).getD d = f i
  rw [List.get?_eq_getElem?, List.getElem?_map, List.getElem?_range h]
  rfl

/-- Default-0 list read preserves a strict bound satisfied by all
elements. -/
theorem list_getD_lt (l : List Nat) (B i : Nat) (hB : 0 < B)
    (h : ∀ p ∈ l, p < B) : l.getD i 0 < B := by
  induction l generalizing i with
  | nil => simpa [List.getD] using hB
  | cons a t ih =>
    cases i with
    | zero => exact h a (by simp)
    | succ j =>
      have hcons : (a :: t).getD (j + 1) 0 = t.getD j 0 := rfl
      rw [hcons]
      exact ih j (fun p hp => h p (by simp [hp]))

/-- struct fsl_edma_sw_tcd: one pool allocation, i.e. the physical (dma)
address of a hardware TCD slot together with the TCD stored in it. -/
structure FslEdmaSwTcd where
  ptcd : Nat
  vtcd : FslEdmaTcd
deriving DecidableEq, Repr

instance : Inhabited FslEdmaTcd :=
  ⟨{ saddr := 0, soff := 0, attr := 0, nbytes := 0, slast := 0, daddr := 0,
     doff := 0, citer := 0, dlast_sga := 0, csr := 0, biter := 0 }⟩

instance : Inhabited FslEdmaSwTcd := ⟨{ ptcd := 0, vtcd := default }⟩

/-- struct fsl_edma_desc: cyclic flag, cyclic buffer length (unsigned
int) and the ordered TCD entries. -/
structure FslEdmaDesc where
  iscyclic : Bool
  cyclic_len : Nat
  tcd : List FslEdmaSwTcd
deriving DecidableEq, Repr

/-- One scatterlist segment as the driver reads it: sg_dma_address and
sg_dma_len. -/
structure SgSeg where
  dma_address : Nat
  dma_len : Nat
deriving DecidableEq, Repr

/-- struct fsl_edma_slave_config: the per-channel slave parameters stored
by fsl_edma_slave_config and read by both prep functions. -/
structure FslEdmaSlaveConfig where
  dir : DmaTransferDirection
  addr_width : Nat
  dev_addr : Nat
  burst : Nat
  attr : Nat
deriving DecidableEq, Repr

/-- Body of the for_each_sg loop of fsl_edma_prep_slave_sg at index i:
the TCD written into fsl_desc->tcd[i].vtcd.  The u32/u16 narrowings of
the C locals (src_addr, dst_addr, soff, doff, nbytes, iter, last_sg) and
of fsl_edma_fill_tcd's u16 attr argument are the explicit `%` operations. -/
def sgVtcd (fsc : FslEdmaSlaveConfig) (segs : List SgSeg) (ptcds : List Nat)
    (i : Nat) : FslEdmaTcd :=
  let sg_len := segs.length
  let nbytes := fsc.addr_width * fsc.burst % 4294967296
  let seg := segs.getD i { dma_address := 0, dma_len := 0 }
  let src_addr := if fsc.dir = .mem_to_dev then seg.dma_address % 4294967296
    else fsc.dev_addr
  let dst_addr := if fsc.dir = .mem_to_dev then fsc.dev_addr
    else seg.dma_address % 4294967296
  let soff := if fsc.dir = .mem_to_dev then fsc.addr_width % 65536 else 0
  let doff := if fsc.dir = .mem_to_dev then 0 else fsc.addr_width % 65536
  let iter := seg.dma_len / nbytes % 65536
  if i < sg_len - 1 then
    fsl_edma_fill_tcd src_addr dst_addr (fsc.attr % 65536) soff nbytes 0 iter
      iter doff (ptcds.getD (i + 1) 0 % 4294967296) false false true
  else
    fsl_edma_fill_tcd src_addr dst_addr (fsc.attr % 65536) soff nbytes 0 iter
      iter doff 0 true true false

/-- fsl_edma_prep_slave_sg.  The pool allocations made by
fsl_edma_alloc_desc (one physical TCD address per segment) are passed in
as `ptcds`; the function checks the configured slave direction and builds
one TCD per segment. -/
def fsl_edma_prep_slave_sg (fsc : FslEdmaSlaveConfig) (segs : List SgSeg)
    (ptcds : List Nat) : Option FslEdmaDesc :=
  if is_slave_direction fsc.dir then
    some { iscyclic := false
           cyclic_len := 0
           tcd := (List.range segs.length).map
             (fun i => { ptcd := ptcds.getD i 0
                         vtcd := sgVtcd fsc segs ptcds i }) }
  else none

/-- Value of dma_buf_next as used in iteration i of the cyclic prep loop:
it starts at dma_addr, advances by period_len after each entry, and is
reset to dma_addr whenever it has reached dma_addr + buf_len (all in
64-bit dma_addr_t arithmetic). -/
def cyclicUsedAddr (dma_addr buf_len period_len : Nat) : Nat → Nat
  | 0 => dma_addr
  | i + 1 =>
    let raw := (cyclicUsedAddr dma_addr buf_len period_len i + period_len)
      % 18446744073709551616
    if (dma_addr + buf_len) % 18446744073709551616 ≤ raw then dma_addr else raw

/-- Body of the cyclic prep loop at index i: the TCD written into
fsl_desc->tcd[i].vtcd by fsl_edma_prep_dma_cyclic. -/
def cyclicVtcd (fsc : FslEdmaSlaveConfig) (dma_addr buf_len period_len : Nat)
    (ptcds : List Nat) (i : Nat) : FslEdmaTcd :=
  let sg_len := buf_len / period_len
  let nbytes := fsc.addr_width * fsc.burst % 4294967296
  let iter := period_len / nbytes % 65536
  let dma_buf_next := cyclicUsedAddr dma_addr buf_len period_len i
  let last_sg := ptcds.getD ((i + 1) % sg_len) 0 % 4294967296
  let src_addr := if fsc.dir = .mem_to_dev then dma_buf_next % 4294967296
    else fsc.dev_addr
  let dst_addr := if fsc.dir = .mem_to_dev then fsc.dev_addr
    else dma_buf_next % 4294967296
  let soff := if fsc.dir = .mem_to_dev then fsc.addr_width % 65536 else 0
  let doff := if fsc.dir = .mem_to_dev then 0 else fsc.addr_width % 65536
  fsl_edma_fill_tcd src_addr dst_addr (fsc.attr % 65536) soff nbytes 0 iter
    iter doff last_sg true false true

/-- fsl_edma_prep_dma_cyclic: sg_len = buf_len / period_len entries, the
descriptor marked cyclic with cyclic_len = buf_len (stored in an unsigned
int field). -/
def fsl_edma_prep_dma_cyclic (fsc : FslEdmaSlaveConfig)
    (dma_addr buf_len period_len : Nat) (ptcds : List Nat) :
    Option FslEdmaDesc :=
  if is_slave_direction fsc.dir then
    some { iscyclic := true
           cyclic_len := buf_len % 4294967296
           tcd := (List.range (buf_len / period_len)).map
             (fun i => { ptcd := ptcds.getD i 0
                         vtcd := cyclicVtcd fsc dma_addr buf_len period_len
                           ptcds i }) }
  else none

/-- C2: a scatter-gather submission of k >= 1 segments on a channel with
a slave direction builds exactly k TCD entries; entries 0..k-2 have the
E_SG flag set and link to the physical address of entry i+1; the last
entry has D_REQ and INT_MAJOR set, E_SG clear and a zero link. -/
theorem prep_slave_sg_chain_structure (fsc : FslEdmaSlaveConfig)
    (segs : List SgSeg) (ptcds : List Nat) (d : FslEdmaDesc)
    (hlen : ptcds.length = segs.length)
    (hk : 1 ≤ segs.length)
    (hp : ∀ p ∈ ptcds, p < 4294967296)
    (hd : fsl_edma_prep_slave_sg fsc segs ptcds = some d) :
    d.tcd.length = segs.length
    ∧ (∀ i, i + 1 < segs.length →
        ((d.tcd.getD i default).vtcd.csr.testBit 4 = true
          ∧ (d.tcd.getD i default).vtcd.dlast_sga
              = (d.tcd.getD (i + 1) default).ptcd))
    ∧ (d.tcd.getD (segs.length - 1) default).vtcd.csr.testBit 3 = true
    ∧ (d.tcd.getD (segs.length - 1) default).vtcd.csr.testBit 1 = true
    ∧ (d.tcd.getD (segs.length - 1) default).vtcd.csr.testBit 4 = false
    ∧ (d.tcd.getD (segs.length - 1) default).vtcd.dlast_sga = 0 := by
  cases hsl : is_slave_direction fsc.dir with
  | false => simp [fsl_edma_prep_slave_sg, hsl] at hd
  | true =>
    simp only [fsl_edma_prep_slave_sg, hsl, if_true, Option.some.injEq] at hd
    subst hd
    refine ⟨by simp, ?_, ?_, ?_, ?_, ?_⟩
    · intro i hi
      rw [getD_map_range _ _ _ _ (by omega), getD_map_range _ _ _ _ hi]
      constructor
      · simp only [sgVtcd]
        rw [if_pos (show i < segs.length - 1 by omega)]
        simp [fsl_edma_fill_tcd]
        decide
      · simp only [sgVtcd]
        rw [if_pos (show i < segs.length - 1 by omega)]
        simp only [fsl_edma_fill_tcd]
        exact Nat.mod_eq_of_lt (list_getD_lt ptcds 4294967296 (i + 1)
          (by norm_num) hp)
    · rw [getD_map_range _ _ _ _ (by omega)]
      simp only [sgVtcd]
      rw [if_neg (show ¬ segs.length - 1 < segs.length - 1 by omega)]
      simp [fsl_edma_fill_tcd]
      decide
    · rw [getD_map_range _ _ _ _ (by omega)]
      simp only [sgVtcd]
      rw [if_neg (show ¬ segs.length - 1 < segs.length - 1 by omega)]
      simp [fsl_edma_fill_tcd]
      decide
    · rw [getD_map_range _ _ _ _ (by omega)]
      simp only [sgVtcd]
      rw [if_neg (show ¬ segs.length - 1 < segs.length - 1 by omega)]
      simp [fsl_edma_fill_tcd]
      decide
    · rw [getD_map_range _ _ _ _ (by omega)]
      simp only [sgVtcd]
      rw [if_neg (show ¬ segs.length - 1 < segs.length - 1 by omega)]
      simp [fsl_edma_fill_tcd]

/-- Example slave configuration: memory-to-device, 4-byte width, burst 4,
device FIFO at 0x1000 (32-bit attr as fsl_edma_get_tcd_attr computes). -/
def sgFscEx : FslEdmaSlaveConfig :=
  { dir := .mem_to_dev, addr_width := 4, dev_addr := 4096, burst := 4,
    attr := 514 }

/-- Example scatterlist: two 64-byte segments. -/
def sgSegsEx : List SgSeg :=
  [{ dma_address := 8192, dma_len := 64 }, { dma_address := 12288, dma_len := 64 }]

/-- Example pool allocations for the two segments. -/
def sgPtcdsEx : List Nat := [256, 288]

/-- Example scatter-gather descriptor built from the example inputs. -/
def sgDescEx : FslEdmaDesc :=
  (fsl_edma_prep_slave_sg sgFscEx sgSegsEx sgPtcdsEx).getD
    { iscyclic := false, cyclic_len := 0, tcd := [] }

/-- C2, witness: the chain-structure theorem applied to the concrete
two-segment example; entry 0 links to entry 1's physical address. -/
theorem prep_slave_sg_chain_structure_witness :
    1 ≤ sgSegsEx.length
    ∧ (sgDescEx.tcd.getD 0 default).vtcd.dlast_sga
        = (sgDescEx.tcd.getD 1 default).ptcd :=
  ⟨by decide,
    ((prep_slave_sg_chain_structure sgFscEx sgSegsEx sgPtcdsEx sgDescEx
      (by decide) (by decide) (by decide) rfl).2.1 0 (by decide)).2⟩

/-- Example slave configuration for the cyclic counterexample: 1-byte
width, burst 1, so one iteration moves one byte. -/
def cyCexFsc : FslEdmaSlaveConfig :=
  { dir := .mem_to_dev, addr_width := 1, dev_addr := 4096, burst := 1,
    attr := 0 }

/-- C3, counterexample: for buffer length L = period P = 32768 with
1-byte width and burst 1, the claim predicts a major-loop iteration count
of P / (addr_width * burst) = 32768, but the built entry's citer is 0:
the count is assigned through a u16 local and masked with 0x7FFF. -/
theorem prep_dma_cyclic_iter_truncation_cex :
    (fsl_edma_prep_dma_cyclic cyCexFsc 0 32768 32768 [64]).map
        (fun d => (d.tcd.getD 0 default).vtcd.citer) = some 0
    ∧ 32768 / (cyCexFsc.addr_width * cyCexFsc.burst) = 32768
    ∧ (0 : Nat) ≠ 32768 := by
  refine ⟨?_, by decide, by decide⟩
  rfl

/-- C3, amended: a cyclic submission with period P dividing buffer length
L builds exactly L/P entries forming a true ring (entry i links to the
physical address of entry (i+1) mod n), every entry has INT_MAJOR and
E_SG set and D_REQ clear, and each entry's major-loop iteration count is
(P / (addr_width * burst)) mod 2^15 — the quotient truncated to the
15-bit hardware field rather than the exact quotient. -/
theorem prep_dma_cyclic_ring_structure (fsc : FslEdmaSlaveConfig)
    (dma_addr buf_len period_len : Nat) (ptcds : List Nat) (d : FslEdmaDesc)
    (hP : 0 < period_len) (hdvd : period_len ∣ buf_len)
    (hnb : 0 < fsc.addr_width * fsc.burst)
    (hnb2 : fsc.addr_width * fsc.burst < 4294967296)
    (hlen : ptcds.length = buf_len / period_len)
    (hp : ∀ p ∈ ptcds, p < 4294967296)
    (hd : fsl_edma_prep_dma_cyclic fsc dma_addr buf_len period_len ptcds
      = some d) :
    d.tcd.length = buf_len / period_len
    ∧ (∀ i, i < buf_len / period_len →
        ((d.tcd.getD i default).vtcd.dlast_sga
            = (d.tcd.getD ((i + 1) % (buf_len / period_len)) default).ptcd
          ∧ (d.tcd.getD i default).vtcd.csr.testBit 1 = true
          ∧ (d.tcd.getD i default).vtcd.csr.testBit 4 = true
          ∧ (d.tcd.getD i default).vtcd.csr.testBit 3 = false
          ∧ (d.tcd.getD i default).vtcd.citer
              = period_len / (fsc.addr_width * fsc.burst) % 32768
          ∧ (d.tcd.getD i default).vtcd.biter
              = period_len / (fsc.addr_width * fsc.burst) % 32768)) := by
  cases hsl : is_slave_direction fsc.dir with
  | false => simp [fsl_edma_prep_dma_cyclic, hsl] at hd
  | true =>
    simp only [fsl_edma_prep_dma_cyclic, hsl, if_true, Option.some.injEq] at hd
    subst hd
    refine ⟨by simp, ?_⟩
    intro i hi
    have hmod : (i + 1) % (buf_len / period_len) < buf_len / period_len :=
      Nat.mod_lt _ (by omega)
    rw [getD_map_range _ _ _ _ hi, getD_map_range _ _ _ _ hmod]
    simp only [cyclicVtcd, fsl_edma_fill_tcd]
    rw [Nat.mod_eq_of_lt hnb2]
    refine ⟨Nat.mod_eq_of_lt (list_getD_lt ptcds 4294967296 _
      (by norm_num) hp), by decide, by decide, by decide, by omega, by omega⟩

/-- Example cyclic request: 64-byte ring buffer at 0x2000, 32-byte
periods, 4-byte width, burst 4. -/
def cyFscEx : FslEdmaSlaveConfig :=
  { dir := .mem_to_dev, addr_width := 4, dev_addr := 4096, burst := 4,
    attr := 514 }

/-- Example pool allocations for the two cyclic entries. -/
def cyPtcdsEx : List Nat := [256, 288]

/-- Example cyclic descriptor built from the example inputs. -/
def cyDescEx : FslEdmaDesc :=
  (fsl_edma_prep_dma_cyclic cyFscEx 8192 64 32 cyPtcdsEx).getD
    { iscyclic := false, cyclic_len := 0, tcd := [] }

/-- C3, witness: the ring theorem at the concrete two-period example;
entry 1 links back to entry 0's physical address. -/
theorem prep_dma_cyclic_ring_structure_witness :
    0 < 32
    ∧ (cyDescEx.tcd.getD 1 default).vtcd.dlast_sga
        = (cyDescEx.tcd.getD ((1 + 1) % (64 / 32)) default).ptcd :=
  ⟨by decide,
    ((prep_dma_cyclic_ring_structure cyFscEx 8192 64 32 cyPtcdsEx cyDescEx
      (by decide) (by decide) (by decide) (by decide) (by decide) (by decide)
      rfl).2 1 (by decide)).1⟩

/-- 64-bit wrap-around subtraction: the value the C u64 expression
`a - b` yields for an operand `a` already below 2^64. -/
def wsub64 (a b : Nat) : Nat :=
  (a + (18446744073709551616 - b % 18446744073709551616)) % 18446744073709551616

/-- Total size accumulated by fsl_edma_desc_residue for a non-cyclic
descriptor: len += le32(nbytes) * le16(biter), the product in u32
arithmetic, the sum in size_t. -/
def residueTotalLen (tcds : List FslEdmaSwTcd) : Nat :=
  tcds.foldl
    (fun len t =>
      (len + t.vtcd.nbytes * t.vtcd.biter % 4294967296) % 18446744073709551616)
    0

/-- In-progress scan of fsl_edma_desc_residue: subtract each entry's full
size from the running total (before the range test, as in the source),
and when the live address falls inside the entry's range add back
(entry end - live address) and stop. -/
def residueScanCode (dir : DmaTransferDirection) (cur : Nat) :
    List FslEdmaSwTcd → Nat → Nat
  | [], len => len
  | t :: rest, len =>
    let size := t.vtcd.nbytes * t.vtcd.biter % 4294967296
    let dma_addr := if dir = .mem_to_dev then t.vtcd.saddr else t.vtcd.daddr
    let len1 := wsub64 len size
    if dma_addr ≤ cur ∧ cur < (dma_addr + size) % 18446744073709551616 then
      (len1 + wsub64 ((dma_addr + size) % 18446744073709551616) cur)
        % 18446744073709551616
    else residueScanCode dir cur rest len1

/-- fsl_edma_desc_residue.  The C function receives the queried
descriptor vdesc but ignores it: every read goes through
fsl_chan->edesc, the channel's active descriptor, and the channel's
configured direction fsl_chan->fsc.dir (both passed in here as
chan_edesc and chan_dir).  With no active descriptor the first read,
edesc->iscyclic, dereferences NULL — modelled as `none`.  The live
hardware TCD address registers are inputs (hw_saddr, hw_daddr); the
cyclic branch reads the first active entry's saddr field. -/
def fsl_edma_desc_residue (chan_edesc : Option FslEdmaDesc)
    (chan_dir : DmaTransferDirection) (vdesc : FslEdmaDesc)
    (in_progress : Bool) (hw_saddr hw_daddr : Nat) : Option Nat :=
  match chan_edesc with
  | none => none
  | some edesc =>
    let len := if edesc.iscyclic then edesc.cyclic_len
      else residueTotalLen edesc.tcd
    if ¬ in_progress then some len
    else
      let cur_addr := if chan_dir = .mem_to_dev then hw_saddr else hw_daddr
      if edesc.iscyclic then
        some (wsub64 len (wsub64 cur_addr (edesc.tcd.getD 0 default).vtcd.saddr))
      else some (residueScanCode chan_dir cur_addr edesc.tcd len)

/-- Example device-to-memory cyclic descriptor: device FIFO at 0x1000,
64-byte ring buffer at 0x8000, 32-byte periods.  Every entry's saddr is
the device address 0x1000; the buffer addresses live in daddr. -/
def cyDevDescEx : FslEdmaDesc :=
  (fsl_edma_prep_dma_cyclic
    { dir := .dev_to_mem, addr_width := 4, dev_addr := 4096, burst := 4,
      attr := 514 } 32768 64 32 cyPtcdsEx).getD
    { iscyclic := false, cyclic_len := 0, tcd := [] }

/-- C6, counterexample: for a device-to-memory cyclic transfer the live
address is the daddr register walking the ring buffer, but the formula's
tcd[0].saddr is the device FIFO address, so cyclic_len - (live - saddr)
wraps in u64: with the buffer at 0x8000, device at 0x1000 and live daddr
0x8020, the returned residue is 2^64 - 28640, far above cyclic_len = 64
— the claim's "the result is never negative" fails. -/
theorem cyclic_residue_dev_to_mem_wraps_cex :
    cyDevDescEx.iscyclic = true
    ∧ (cyDevDescEx.tcd.getD 0 default).vtcd.saddr = 4096
    ∧ fsl_edma_desc_residue (some cyDevDescEx) .dev_to_mem cyDevDescEx true
        0 32800 = some 18446744073709522976
    ∧ 18446744073709522976 > cyDevDescEx.cyclic_len := by
  refine ⟨rfl, rfl, rfl, by decide⟩

/-- C6, amended: the returned cyclic residue is always the 64-bit
wrap-around value cyclic_len - (live - tcd[0].saddr), with the live
address taken from the source register for memory-to-device and the
destination register otherwise.  When the live address lies between the
first entry's source address and that address plus cyclic_len — the
memory-to-device situation, where entry 0's source address is the ring
buffer start — the result is exactly cyclic_len - (live - tcd[0].saddr)
and never exceeds cyclic_len (never negative).  For device-to-memory
that containment fails (entry 0's source address is the device FIFO)
and the subtraction wraps, as the counterexample shows. -/
theorem cyclic_residue_formula (chan_edesc : Option FslEdmaDesc)
    (chan_dir : DmaTransferDirection) (edesc vdesc : FslEdmaDesc)
    (hw_saddr hw_daddr cur : Nat)
    (hedesc : chan_edesc = some edesc)
    (hcy : edesc.iscyclic = true)
    (hc : cur = if chan_dir = .mem_to_dev then hw_saddr else hw_daddr)
    (hs : (edesc.tcd.getD 0 default).vtcd.saddr ≤ cur)
    (hin : cur ≤ (edesc.tcd.getD 0 default).vtcd.saddr + edesc.cyclic_len)
    (hlim : (edesc.tcd.getD 0 default).vtcd.saddr + edesc.cyclic_len
      < 18446744073709551616) :
    fsl_edma_desc_residue chan_edesc chan_dir vdesc true hw_saddr hw_daddr
      = some (edesc.cyclic_len - (cur - (edesc.tcd.getD 0 default).vtcd.saddr))
    ∧ edesc.cyclic_len - (cur - (edesc.tcd.getD 0 default).vtcd.saddr)
      ≤ edesc.cyclic_len := by
  have hres : fsl_edma_desc_residue chan_edesc chan_dir vdesc true hw_saddr
      hw_daddr
      = some (wsub64 edesc.cyclic_len
          (wsub64 cur (edesc.tcd.getD 0 default).vtcd.saddr)) := by
    rw [hedesc, hc]
    simp [fsl_edma_desc_residue, hcy]
  have h1 : wsub64 cur (edesc.tcd.getD 0 default).vtcd.saddr
      = cur - (edesc.tcd.getD 0 default).vtcd.saddr := by
    unfold wsub64; omega
  have h2 : wsub64 edesc.cyclic_len
      (cur - (edesc.tcd.getD 0 default).vtcd.saddr)
      = edesc.cyclic_len - (cur - (edesc.tcd.getD 0 default).vtcd.saddr) := by
    unfold wsub64; omega
  rw [hres, h1, h2]
  exact ⟨rfl, Nat.sub_le _ _⟩

/-- C6, witness: the in-window formula at the concrete memory-to-device
example ring, one period in: residue = 64 - (8224 - 8192) = 32. -/
theorem cyclic_residue_formula_witness :
    cyDescEx.iscyclic = true
    ∧ fsl_edma_desc_residue (some cyDescEx) .mem_to_dev cyDescEx true 8224 0
        = some (cyDescEx.cyclic_len
            - (8224 - (cyDescEx.tcd.getD 0 default).vtcd.saddr)) :=
  ⟨by decide,
    (cyclic_residue_formula (some cyDescEx) .mem_to_dev cyDescEx cyDescEx
      8224 0 8224 rfl (by decide) (by decide) (by decide) (by decide)
      (by decide)).1⟩

/-- Residue scan as the spec words it for the in-progress non-cyclic
case, in exact arithmetic: scan descriptor entries in order subtracting
each entry's full size (per-iteration bytes times beginning iteration
count) from the running total until the live address falls within that
entry's address range, then add back (entry end address - live address). -/
def residueScanSpec (dir : DmaTransferDirection) (cur : Nat) :
    List FslEdmaSwTcd → Nat → Nat
  | [], len => len
  | t :: rest, len =>
    let size := t.vtcd.nbytes * t.vtcd.biter
    let addr := if dir = .mem_to_dev then t.vtcd.saddr else t.vtcd.daddr
    if addr ≤ cur ∧ cur < addr + size then (len - size) + (addr + size - cur)
    else residueScanSpec dir cur rest (len - size)

/-- The size_t accumulation of fsl_edma_desc_residue equals the exact sum
of per-entry sizes when each product fits u32 and the sum fits 64 bits. -/
theorem residueTotalLen_eq (tcds : List FslEdmaSwTcd)
    (h1 : ∀ t ∈ tcds, t.vtcd.nbytes * t.vtcd.biter < 4294967296)
    (h2 : (tcds.map fun t => t.vtcd.nbytes * t.vtcd.biter).sum
      < 18446744073709551616) :
    residueTotalLen tcds = (tcds.map fun t => t.vtcd.nbytes * t.vtcd.biter).sum := by
  suffices haux : ∀ acc, acc + (tcds.map fun t => t.vtcd.nbytes * t.vtcd.biter).sum
      < 18446744073709551616 →
      tcds.foldl (fun len t =>
        (len + t.vtcd.nbytes * t.vtcd.biter % 4294967296) % 18446744073709551616)
        acc
      = acc + (tcds.map fun t => t.vtcd.nbytes * t.vtcd.biter).sum by
    have h0 := haux 0 (by omega)
    simpa [residueTotalLen] using h0
  clear h2
  induction tcds with
  | nil => intro acc hacc; simp
  | cons t rest ih =>
    intro acc hacc
    have ht : t.vtcd.nbytes * t.vtcd.biter < 4294967296 := h1 t (by simp)
    have hsize : t.vtcd.nbytes * t.vtcd.biter % 4294967296
        = t.vtcd.nbytes * t.vtcd.biter := Nat.mod_eq_of_lt ht
    simp only [List.foldl_cons, List.map_cons, List.sum_cons] at hacc ⊢
    rw [hsize]
    have hmod : (acc + t.vtcd.nbytes * t.vtcd.biter) % 18446744073709551616
        = acc + t.vtcd.nbytes * t.vtcd.biter := by
      apply Nat.mod_eq_of_lt
      omega
    rw [hmod]
    rw [ih (fun u hu => h1 u (by simp [hu])) (acc + t.vtcd.nbytes * t.vtcd.biter)
      (by omega)]
    omega

/-- The wrap-around scan of fsl_edma_desc_residue agrees with the exact
spec scan when the running total bounds every remaining size and all
quantities fit their machine widths. -/
theorem residueScanCode_eq_spec (dir : DmaTransferDirection) (cur : Nat)
    (tcds : List FslEdmaSwTcd) (len : Nat)
    (hlen : len < 9223372036854775808)
    (hsum : (tcds.map fun t => t.vtcd.nbytes * t.vtcd.biter).sum ≤ len)
    (hsz : ∀ t ∈ tcds, t.vtcd.nbytes * t.vtcd.biter < 4294967296)
    (haddr : ∀ t ∈ tcds,
      (if dir = .mem_to_dev then t.vtcd.saddr else t.vtcd.daddr) < 4294967296)
    (hcur : cur < 18446744073709551616) :
    residueScanCode dir cur tcds len = residueScanSpec dir cur tcds len := by
  induction tcds generalizing len with
  | nil => rfl
  | cons t rest ih =>
    have ht : t.vtcd.nbytes * t.vtcd.biter < 4294967296 := hsz t (by simp)
    have hta : (if dir = .mem_to_dev then t.vtcd.saddr else t.vtcd.daddr)
        < 4294967296 := haddr t (by simp)
    have hrest : (rest.map fun u => u.vtcd.nbytes * u.vtcd.biter).sum
        ≤ len - t.vtcd.nbytes * t.vtcd.biter := by
      simp only [List.map_cons, List.sum_cons] at hsum
      omega
    have htle : t.vtcd.nbytes * t.vtcd.biter ≤ len := by
      simp only [List.map_cons, List.sum_cons] at hsum
      omega
    simp only [residueScanCode, residueScanSpec]
    rw [Nat.mod_eq_of_lt ht]
    have hlen1 : wsub64 len (t.vtcd.nbytes * t.vtcd.biter)
        = len - t.vtcd.nbytes * t.vtcd.biter := by
      unfold wsub64; omega
    have haddsz : ((if dir = .mem_to_dev then t.vtcd.saddr else t.vtcd.daddr)
          + t.vtcd.nbytes * t.vtcd.biter) % 18446744073709551616
        = (if dir = .mem_to_dev then t.vtcd.saddr else t.vtcd.daddr)
          + t.vtcd.nbytes * t.vtcd.biter := by
      apply Nat.mod_eq_of_lt
      omega
    rw [hlen1, haddsz]
    by_cases hhit : (if dir = .mem_to_dev then t.vtcd.saddr else t.vtcd.daddr)
        ≤ cur ∧ cur < (if dir = .mem_to_dev then t.vtcd.saddr else t.vtcd.daddr)
          + t.vtcd.nbytes * t.vtcd.biter
    · rw [if_pos hhit, if_pos hhit]
      have hback : wsub64 ((if dir = .mem_to_dev then t.vtcd.saddr
            else t.vtcd.daddr) + t.vtcd.nbytes * t.vtcd.biter) cur
          = (if dir = .mem_to_dev then t.vtcd.saddr else t.vtcd.daddr)
            + t.vtcd.nbytes * t.vtcd.biter - cur := by
        unfold wsub64; omega
      rw [hback]
      apply Nat.mod_eq_of_lt
      omega
    · rw [if_neg hhit, if_neg hhit]
      exact ih (len - t.vtcd.nbytes * t.vtcd.biter) (by omega) hrest
        (fun u hu => hsz u (by simp [hu])) (fun u hu => haddr u (by simp [hu]))

/-- Example one-segment scatter-gather descriptor (own total 32 bytes),
distinct from the two-segment sgDescEx (total 128). -/
def sgDesc2Ex : FslEdmaDesc :=
  (fsl_edma_prep_slave_sg sgFscEx [{ dma_address := 16384, dma_len := 32 }]
    [320]).getD { iscyclic := false, cyclic_len := 0, tcd := [] }

/-- C7, counterexample: the residue helper ignores the queried
descriptor.  Querying the one-segment descriptor (whose own entry sum is
32) while the two-segment descriptor is active returns the active
descriptor's total 128, not 32; and with no active descriptor it hits
the NULL dereference of edesc->iscyclic (none) instead of returning the
queried descriptor's sum. -/
theorem desc_residue_ignores_queried_desc_cex :
    (sgDesc2Ex.tcd.map fun t => t.vtcd.nbytes * t.vtcd.biter).sum = 32
    ∧ fsl_edma_desc_residue (some sgDescEx) .mem_to_dev sgDesc2Ex false 0 0
        = some 128
    ∧ (128 : Nat) ≠ 32
    ∧ fsl_edma_desc_residue none .mem_to_dev sgDesc2Ex false 0 0 = none := by
  exact ⟨by decide, rfl, by decide, rfl⟩

/-- C7, amended: the residue is computed from the channel's active
descriptor, whatever descriptor is queried (the vdesc argument is
ignored; with no active descriptor the helper dereferences NULL).  For a
non-cyclic active descriptor: not in progress, the residue is the exact
sum over the active descriptor's entries of (per-iteration bytes times
beginning iteration count); in progress, it equals the spec's scan of
the active descriptor's entries (subtract each entry's full size until
the live address falls in an entry's range, then add back entry end
minus live address), starting from that total. -/
theorem noncyclic_residue_spec (chan_edesc : Option FslEdmaDesc)
    (chan_dir : DmaTransferDirection) (edesc vdesc : FslEdmaDesc)
    (hw_saddr hw_daddr cur : Nat)
    (hedesc : chan_edesc = some edesc)
    (hnc : edesc.iscyclic = false)
    (hc : cur = if chan_dir = .mem_to_dev then hw_saddr else hw_daddr)
    (hsz : ∀ t ∈ edesc.tcd, t.vtcd.nbytes * t.vtcd.biter < 4294967296)
    (haddr : ∀ t ∈ edesc.tcd,
      (if chan_dir = .mem_to_dev then t.vtcd.saddr else t.vtcd.daddr)
        < 4294967296)
    (htot : (edesc.tcd.map fun t => t.vtcd.nbytes * t.vtcd.biter).sum
      < 9223372036854775808)
    (hcur : cur < 18446744073709551616) :
    fsl_edma_desc_residue chan_edesc chan_dir vdesc false hw_saddr hw_daddr
      = some ((edesc.tcd.map fun t => t.vtcd.nbytes * t.vtcd.biter).sum)
    ∧ fsl_edma_desc_residue chan_edesc chan_dir vdesc true hw_saddr hw_daddr
      = some (residueScanSpec chan_dir cur edesc.tcd
          ((edesc.tcd.map fun t => t.vtcd.nbytes * t.vtcd.biter).sum)) := by
  have hTL : residueTotalLen edesc.tcd
      = (edesc.tcd.map fun t => t.vtcd.nbytes * t.vtcd.biter).sum :=
    residueTotalLen_eq edesc.tcd hsz (by omega)
  constructor
  · rw [hedesc]
    simp [fsl_edma_desc_residue, hnc, hTL]
  · have hcode : fsl_edma_desc_residue chan_edesc chan_dir vdesc true
        hw_saddr hw_daddr
        = some (residueScanCode chan_dir cur edesc.tcd
            (residueTotalLen edesc.tcd)) := by
      rw [hedesc, hc]
      simp [fsl_edma_desc_residue, hnc]
    rw [hcode, hTL]
    rw [residueScanCode_eq_spec chan_dir cur edesc.tcd _ htot (le_refl _) hsz
      haddr hcur]

/-- C7, witness: the amended residue at the concrete state where the
two-segment descriptor is active and the one-segment descriptor is
queried, live address 16 bytes into the active second segment: the
not-in-progress answer is the active total 128 and the in-progress
answer is the scan over the active entries. -/
theorem noncyclic_residue_spec_witness :
    sgDescEx.iscyclic = false
    ∧ fsl_edma_desc_residue (some sgDescEx) .mem_to_dev sgDesc2Ex false
        12304 0 = some 128
    ∧ fsl_edma_desc_residue (some sgDescEx) .mem_to_dev sgDesc2Ex true
        12304 0 = some (residueScanSpec .mem_to_dev 12304 sgDescEx.tcd 128) :=
  ⟨by decide,
    (noncyclic_residue_spec (some sgDescEx) .mem_to_dev sgDescEx sgDesc2Ex
      12304 0 12304 rfl (by decide) (by decide) (by decide) (by decide)
      (by decide) (by decide)).1,
    (noncyclic_residue_spec (some sgDescEx) .mem_to_dev sgDescEx sgDesc2Ex
      12304 0 12304 rfl (by decide) (by decide) (by decide) (by decide)
      (by decide) (by decide)).2⟩

/-- Channel status (the subset of Linux enum dma_status the driver
stores: DMA_COMPLETE, DMA_IN_PROGRESS, DMA_PAUSED, DMA_ERROR). -/
inductive DmaStatus
  | complete
  | in_progress
  | paused
  | error
deriving DecidableEq, Repr

/-- enum fsl_edma_pm_state. -/
inductive FslEdmaPmState
  | running
  | suspended
deriving DecidableEq, Repr

/-- Register targets of the hardware writes the channel operations issue
(eDMA2 layout: per-channel TCD slot plus the SEEI/SERQ/CEEI/CERQ/CINT/
CERR byte registers). -/
inductive HwReg
  | tcd_csr
  | tcd_saddr
  | tcd_daddr
  | tcd_attr
  | tcd_soff
  | tcd_nbytes
  | tcd_slast
  | tcd_citer
  | tcd_biter
  | tcd_doff
  | tcd_dlast_sga
  | seei
  | serq
  | ceei
  | cerq
  | cint
  | cerr
deriving DecidableEq, Repr

/-- One hardware register write (register and value written). -/
structure HwWrite where
  reg : HwReg
  val : Nat
deriving DecidableEq, Repr

/-- fsl_edma_set_tcd_regs: the write sequence loading a TCD into the
channel's live TCD slot (csr cleared first, csr value written last). -/
def fsl_edma_set_tcd_regs (tcd : FslEdmaTcd) : List HwWrite :=
  [{ reg := .tcd_csr, val := 0 },
   { reg := .tcd_saddr, val := tcd.saddr },
   { reg := .tcd_daddr, val := tcd.daddr },
   { reg := .tcd_attr, val := tcd.attr },
   { reg := .tcd_soff, val := tcd.soff },
   { reg := .tcd_nbytes, val := tcd.nbytes },
   { reg := .tcd_slast, val := tcd.slast },
   { reg := .tcd_citer, val := tcd.citer },
   { reg := .tcd_biter, val := tcd.biter },
   { reg := .tcd_doff, val := tcd.doff },
   { reg := .tcd_dlast_sga, val := tcd.dlast_sga },
   { reg := .tcd_csr, val := tcd.csr }]

/-- fsl_edma_enable_request (eDMA2): SEEI gets EDMA_SEEI_SEEI(ch) =
ch & 0x1F, SERQ gets the channel id as a byte. -/
def fsl_edma_enable_request (ch_id : Nat) : List HwWrite :=
  [{ reg := .seei, val := ch_id % 32 }, { reg := .serq, val := ch_id % 256 }]

/-- fsl_edma_disable_request (eDMA2): CERQ gets the channel id byte,
CEEI gets EDMA_CEEI_CEEI(ch) = ch & 0x1F. -/
def fsl_edma_disable_request (ch_id : Nat) : List HwWrite :=
  [{ reg := .cerq, val := ch_id % 256 }, { reg := .ceei, val := ch_id % 32 }]

/-- Per-channel state of struct fsl_edma_chan, with the virtual-channel
collaborator's two descriptor queues made explicit: `submitted` holds
descriptors accepted by submit but not yet issued, `pending` the issued
FIFO that vchan_issue_pending feeds and vchan_next_desc reads. -/
structure FslEdmaChan where
  chan_id : Nat
  status : DmaStatus
  pm_state : FslEdmaPmState
  idle : Bool
  edesc : Option FslEdmaDesc
  fsc : FslEdmaSlaveConfig
  submitted : List FslEdmaDesc
  pending : List FslEdmaDesc
deriving DecidableEq, Repr

/-- fsl_edma_xfer_desc: peek the first issued descriptor
(vchan_next_desc); if there is one, load its first TCD into hardware,
enable the request, and mark the channel in progress and busy. -/
def fsl_edma_xfer_desc (ch : FslEdmaChan) : FslEdmaChan × List HwWrite :=
  match ch.pending.head? with
  | none => (ch, [])
  | some d =>
    ({ ch with edesc := some d, status := .in_progress, idle := false },
     fsl_edma_set_tcd_regs (d.tcd.getD 0 default).vtcd
       ++ fsl_edma_enable_request ch.chan_id)

/-- fsl_edma_issue_pending: under the channel lock, return immediately if
the channel is power-management suspended; otherwise splice the submitted
descriptors onto the issued FIFO (vchan_issue_pending) and, if that FIFO
is non-empty and no descriptor is active, start the next one. -/
def fsl_edma_issue_pending (ch : FslEdmaChan) : FslEdmaChan × List HwWrite :=
  if ch.pm_state ≠ .running then (ch, [])
  else
    let ch1 := { ch with pending := ch.pending ++ ch.submitted, submitted := [] }
    if ch1.pending ≠ [] ∧ ch.edesc = none then fsl_edma_xfer_desc ch1
    else (ch1, [])

/-- fsl_edma_terminate_all: disable the hardware request, drop the active
descriptor reference, mark the channel idle and free every queued
descriptor (vchan_get_all_descriptors takes both queues).  The status
field is not touched. -/
def fsl_edma_terminate_all (ch : FslEdmaChan) : FslEdmaChan × List HwWrite :=
  ({ ch with edesc := none, idle := true, pending := [], submitted := [] },
   fsl_edma_disable_request ch.chan_id)

/-- fsl_edma_pause: if a descriptor is active, disable the request and
mark the channel paused and idle. -/
def fsl_edma_pause (ch : FslEdmaChan) : FslEdmaChan × List HwWrite :=
  match ch.edesc with
  | some _ =>
    ({ ch with status := .paused, idle := true },
     fsl_edma_disable_request ch.chan_id)
  | none => (ch, [])

/-- fsl_edma_resume: if a descriptor is active, re-enable the request and
mark the channel in progress and busy. -/
def fsl_edma_resume (ch : FslEdmaChan) : FslEdmaChan × List HwWrite :=
  match ch.edesc with
  | some _ =>
    ({ ch with status := .in_progress, idle := false },
     fsl_edma_enable_request ch.chan_id)
  | none => (ch, [])

/-- fsl_edma_submit: vchan_tx_prep plus the cookie assignment of
tx_submit append the new descriptor to the channel's submitted queue. -/
def fsl_edma_submit (ch : FslEdmaChan) (d : FslEdmaDesc) : FslEdmaChan :=
  { ch with submitted := ch.submitted ++ [d] }

/-- Per-channel body of fsl_edma_tx_handler for a channel whose
completion interrupt bit is set: clear the bit (EDMA_CINT write), then
read fsl_chan->edesc->iscyclic.  The source performs that read without a
null check, so a channel with no active descriptor hits a NULL
dereference — modelled as `none`.  Otherwise: a cyclic descriptor only
gets its cyclic callback; a non-cyclic one is detached from the issued
list (list_del), completed, the channel marked complete and idle, and the
next queued descriptor is promoted immediately. -/
def fsl_edma_tx_handler_chan (ch : FslEdmaChan) :
    Option (FslEdmaChan × List HwWrite) :=
  match ch.edesc with
  | none => none
  | some d =>
    if d.iscyclic then some (ch, [{ reg := .cint, val := ch.chan_id % 32 }])
    else
      let ch1 := { ch with
        pending := ch.pending.erase d
        edesc := none
        status := .complete
        idle := true }
      some ((fsl_edma_xfer_desc ch1).1,
        { reg := .cint, val := ch.chan_id % 32 } :: (fsl_edma_xfer_desc ch1).2)

/-- Per-channel body of fsl_edma_err_handler for a channel whose error
bit is set: disable the request, clear the error bit (EDMA_CERR write),
set status to error and idle to true.  The active descriptor reference is
left in place. -/
def fsl_edma_err_handler_chan (ch : FslEdmaChan) : FslEdmaChan × List HwWrite :=
  ({ ch with status := .error, idle := true },
   fsl_edma_disable_request ch.chan_id ++ [{ reg := .cerr, val := ch.chan_id % 32 }])

/-- The channel-facing operations of the driver, as one step type. -/
inductive ChanOp
  | submit (d : FslEdmaDesc)
  | issue_pending
  | pause
  | resume
  | terminate
  | tx_irq
  | err_irq

/-- One operation applied to a channel; `none` is the tx-handler crash on
a channel with no active descriptor. -/
def applyChanOp (ch : FslEdmaChan) : ChanOp → Option FslEdmaChan
  | .submit d => some (fsl_edma_submit ch d)
  | .issue_pending => some (fsl_edma_issue_pending ch).1
  | .pause => some (fsl_edma_pause ch).1
  | .resume => some (fsl_edma_resume ch).1
  | .terminate => some (fsl_edma_terminate_all ch).1
  | .tx_irq => (fsl_edma_tx_handler_chan ch).map Prod.fst
  | .err_irq => some (fsl_edma_err_handler_chan ch).1

/-- A channel that has just started the example scatter-gather transfer:
submit followed by issue_pending on a fresh running channel. -/
def chanActiveEx : FslEdmaChan :=
  (fsl_edma_issue_pending
    { chan_id := 0, status := .complete, pm_state := .running, idle := true,
      edesc := none, fsc := sgFscEx, submitted := [sgDescEx],
      pending := [] }).1

/-- C1: terminate() clears the active descriptor; a completion interrupt
dispatched for the same channel immediately afterwards dereferences the
null fsl_chan->edesc (reading ->iscyclic) instead of treating the
interrupt as a no-op — the handler crashes, modelled by `none`. -/
theorem tx_handler_crashes_on_null_edesc :
    (fsl_edma_terminate_all chanActiveEx).1.edesc = none
    ∧ fsl_edma_tx_handler_chan (fsl_edma_terminate_all chanActiveEx).1
        = none := ⟨rfl, rfl⟩

/-- C5, counterexample: terminate() clears the active-descriptor
reference but leaves the status field untouched, so right after
terminating an in-progress transfer the channel reports status
in-progress with no active descriptor — the claimed iff fails. -/
theorem edesc_status_iff_fails_after_terminate :
    (fsl_edma_terminate_all chanActiveEx).1.status = .in_progress
    ∧ (fsl_edma_terminate_all chanActiveEx).1.edesc = none := ⟨rfl, rfl⟩

/-- The direction of the claimed invariant that the code does maintain:
whenever the active-descriptor reference is non-null, the status is
in-progress, paused, or error. -/
def EdescStatusInv (ch : FslEdmaChan) : Prop :=
  ch.edesc ≠ none →
    ch.status = .in_progress ∨ ch.status = .paused ∨ ch.status = .error

instance (ch : FslEdmaChan) : Decidable (EdescStatusInv ch) := by
  unfold EdescStatusInv
  infer_instance

/-- fsl_edma_xfer_desc preserves the one-directional invariant: it either
leaves the channel unchanged or installs a descriptor with status set to
in-progress. -/
theorem xfer_desc_inv (ch : FslEdmaChan) (h : EdescStatusInv ch) :
    EdescStatusInv (fsl_edma_xfer_desc ch).1 := by
  unfold fsl_edma_xfer_desc
  cases hh : ch.pending.head? with
  | none => simpa using h
  | some d => simp [EdescStatusInv]

/-- C5, amended: at most one transfer is active per channel (the channel
holds a single nullable active-transfer reference), and every operation
preserves the implication "active descriptor present → status is
in-progress, paused or error".  The converse direction of the claimed iff
is false: terminate clears the descriptor without resetting status (see
the counterexample) and the error handler sets status error while keeping
the descriptor. -/
theorem edesc_implies_busy_status_preserved (ch ch' : FslEdmaChan)
    (op : ChanOp) (hinv : EdescStatusInv ch)
    (hstep : applyChanOp ch op = some ch') :
    EdescStatusInv ch' := by
  cases op with
  | submit d =>
    simp only [applyChanOp, fsl_edma_submit, Option.some.injEq] at hstep
    subst hstep
    simpa [EdescStatusInv] using hinv
  | issue_pending =>
    simp only [applyChanOp, Option.some.injEq] at hstep
    subst hstep
    by_cases hpm : ch.pm_state ≠ FslEdmaPmState.running
    · unfold fsl_edma_issue_pending
      rw [if_pos hpm]
      exact hinv
    · have hsh : fsl_edma_issue_pending ch
          = (if ch.pending ++ ch.submitted ≠ [] ∧ ch.edesc = none then
              fsl_edma_xfer_desc
                { ch with
                  pending := ch.pending ++ ch.submitted
                  submitted := [] }
            else
              ({ ch with
                  pending := ch.pending ++ ch.submitted
                  submitted := [] }, [])) := by
        unfold fsl_edma_issue_pending
        rw [if_neg hpm]
      rw [hsh]
      by_cases hgo : ch.pending ++ ch.submitted ≠ [] ∧ ch.edesc = none
      · rw [if_pos hgo]
        apply xfer_desc_inv
        simpa [EdescStatusInv] using hinv
      · rw [if_neg hgo]
        simpa [EdescStatusInv] using hinv
  | pause =>
    simp only [applyChanOp, Option.some.injEq] at hstep
    subst hstep
    unfold fsl_edma_pause
    cases he : ch.edesc with
    | none => simpa using hinv
    | some d => simp [EdescStatusInv]
  | resume =>
    simp only [applyChanOp, Option.some.injEq] at hstep
    subst hstep
    unfold fsl_edma_resume
    cases he : ch.edesc with
    | none => simpa using hinv
    | some d => simp [EdescStatusInv]
  | terminate =>
    simp only [applyChanOp, fsl_edma_terminate_all, Option.some.injEq] at hstep
    subst hstep
    simp [EdescStatusInv]
  | tx_irq =>
    simp only [applyChanOp] at hstep
    cases he : ch.edesc with
    | none => simp [fsl_edma_tx_handler_chan, he] at hstep
    | some d =>
      by_cases hcy : d.iscyclic
      · simp [fsl_edma_tx_handler_chan, he, hcy] at hstep
        subst hstep
        exact hinv
      · simp [fsl_edma_tx_handler_chan, he, hcy] at hstep
        subst hstep
        apply xfer_desc_inv
        simp [EdescStatusInv]
  | err_irq =>
    simp only [applyChanOp, fsl_edma_err_handler_chan, Option.some.injEq]
      at hstep
    subst hstep
    simp [EdescStatusInv]

/-- C5, witness: the preserved implication at the concrete active
channel, stepped by the error interrupt. -/
theorem edesc_implies_busy_status_preserved_witness :
    EdescStatusInv chanActiveEx
    ∧ EdescStatusInv (fsl_edma_err_handler_chan chanActiveEx).1 :=
  ⟨by decide,
    edesc_implies_busy_status_preserved chanActiveEx
      (fsl_edma_err_handler_chan chanActiveEx).1 ChanOp.err_irq (by decide) rfl⟩

/-- C8: issue_pending on a power-management-suspended channel returns
with the channel state identical (no dequeue, no status/edesc/idle
change) and performs no hardware register write. -/
theorem issue_pending_noop_when_suspended (ch : FslEdmaChan)
    (h : ch.pm_state = .suspended) :
    fsl_edma_issue_pending ch = (ch, []) := by
  unfold fsl_edma_issue_pending
  rw [if_pos (by simp [h])]

/-- Concrete suspended channel with a submitted descriptor waiting. -/
def suspChanEx : FslEdmaChan :=
  { chan_id := 1, status := .complete, pm_state := .suspended, idle := true,
    edesc := none, fsc := sgFscEx, submitted := [sgDescEx], pending := [] }

/-- C8, witness: the suspended no-op at the concrete channel. -/
theorem issue_pending_noop_when_suspended_witness :
    suspChanEx.pm_state = .suspended
    ∧ fsl_edma_issue_pending suspChanEx = (suspChanEx, []) :=
  ⟨rfl, issue_pending_noop_when_suspended suspChanEx rfl⟩

/-- EDMAMUX_CHCFG_ENBL: the enable bit of a mux slot byte. -/
def EDMAMUX_CHCFG_ENBL : Nat := 128

/-- EDMAMUX_CHCFG_SOURCE(n) = n & 0x3F: the peripheral id masked to the
slot width. -/
def EDMAMUX_CHCFG_SOURCE (n : Nat) : Nat := n % 64

/-- DMAMUX_NR: number of mux banks. -/
def DMAMUX_NR : Nat := 2

/-- s32v234_mux_channel_mapping: the S32V234/S32GEN1 channel-to-offset
map. -/
def s32v234_mux_channel_mapping (channel_id : Nat) : Nat :=
  4 * (channel_id / 4) + ((4 - channel_id % 4) - 1)

/-- vf610_mux_channel_mapping: the VF610 identity map. -/
def vf610_mux_channel_mapping (channel_id : Nat) : Nat := channel_id

/-- The single byte write fsl_edma_chan_mux performs: which mux bank,
which byte offset inside that bank, and the value written. -/
structure MuxWrite where
  bank : Nat
  off : Nat
  val : Nat
deriving DecidableEq, Repr

/-- fsl_edma_chan_mux: chans_per_mux = n_chans / DMAMUX_NR, the byte
offset comes from the generation-specific channel map applied to
ch % chans_per_mux, the bank from ch / chans_per_mux, and the byte
written is ENBL | (slot & 0x3F) to enable or the DIS sentinel 0 to
disable. -/
def fsl_edma_chan_mux (n_chans : Nat) (mux_channel_mapping : Nat → Nat)
    (ch slot : Nat) (enable : Bool) : MuxWrite :=
  let chans_per_mux := n_chans / DMAMUX_NR
  let ch_off := mux_channel_mapping (ch % chans_per_mux)
  let bank := ch / chans_per_mux
  let slot1 := EDMAMUX_CHCFG_SOURCE slot
  if enable then
    { bank := bank, off := ch_off, val := EDMAMUX_CHCFG_ENBL ||| slot1 }
  else
    { bank := bank, off := ch_off, val := 0 }

/-- Bitwise or of the enable bit with a masked slot id is plain addition
(the operand ranges are disjoint). -/
theorem lor_enbl_eq_add (m : Nat) (h : m < 64) : 128 ||| m = 128 + m := by
  interval_cases m <;> rfl

/-- C9: mux routing writes to bank ch / (n_chans / 2) at byte offset
map(ch mod (n_chans / 2)); enabling writes the enable bit plus the
peripheral id masked to 6 bits, disabling writes the 0 sentinel; the
S32V234 map reverses the order of each 4-channel group, the VF610 map is
the identity. -/
theorem chan_mux_routing_spec :
    (∀ (n_chans : Nat) (muxmap : Nat → Nat) (ch slot : Nat),
        fsl_edma_chan_mux n_chans muxmap ch slot true
          = { bank := ch / (n_chans / 2), off := muxmap (ch % (n_chans / 2)),
              val := 128 + slot % 64 }
        ∧ fsl_edma_chan_mux n_chans muxmap ch slot false
          = { bank := ch / (n_chans / 2), off := muxmap (ch % (n_chans / 2)),
              val := 0 })
    ∧ (∀ c, s32v234_mux_channel_mapping c = 4 * (c / 4) + (3 - c % 4))
    ∧ (∀ c, vf610_mux_channel_mapping c = c) := by
  refine ⟨fun n_chans muxmap ch slot => ⟨?_, rfl⟩, fun c => ?_, fun c => rfl⟩
  · show ({ bank := ch / (n_chans / 2), off := muxmap (ch % (n_chans / 2)),
            val := 128 ||| slot % 64 } : MuxWrite) = _
    rw [lor_enbl_eq_add (slot % 64) (Nat.mod_lt slot (by norm_num))]
  · unfold s32v234_mux_channel_mapping
    omega

/-- struct dma_slave_config: the fields fsl_edma_slave_config reads. -/
structure DmaSlaveConfig where
  direction : DmaTransferDirection
  src_addr : Nat
  dst_addr : Nat
  src_addr_width : Nat
  dst_addr_width : Nat
  src_maxburst : Nat
  dst_maxburst : Nat
deriving DecidableEq, Repr

/-- fsl_edma_get_tcd_attr: the SSIZE|DSIZE attribute word for a bus
width (default: 32-bit). -/
def fsl_edma_get_tcd_attr (addr_width : Nat) : Nat :=
  match addr_width with
  | 1 => 0
  | 2 => 257
  | 4 => 514
  | 8 => 771
  | _ => 514

/-- fsl_edma_slave_config: stores the slave parameters on the channel and
returns 0, or -EINVAL (-22) for a direction that is neither dev-to-mem
nor mem-to-dev.  The direction field is assigned before the check, so it
is overwritten even on the error path; dev_addr is a u32 field receiving
a phys_addr_t. -/
def fsl_edma_slave_config (fsc : FslEdmaSlaveConfig) (cfg : DmaSlaveConfig) :
    FslEdmaSlaveConfig × Int :=
  let fsc1 := { fsc with dir := cfg.direction }
  if cfg.direction = .dev_to_mem then
    ({ fsc1 with
        dev_addr := cfg.src_addr % 4294967296
        addr_width := cfg.src_addr_width
        burst := cfg.src_maxburst
        attr := fsl_edma_get_tcd_attr cfg.src_addr_width }, 0)
  else if cfg.direction = .mem_to_dev then
    ({ fsc1 with
        dev_addr := cfg.dst_addr % 4294967296
        addr_width := cfg.dst_addr_width
        burst := cfg.dst_maxburst
        attr := fsl_edma_get_tcd_attr cfg.dst_addr_width }, 0)
  else (fsc1, -22)

/-- C10: a configuration call with a direction other than dev-to-mem or
mem-to-dev returns -EINVAL, but the channel's stored direction has
already been overwritten with the invalid value; the remaining slave
fields (dev_addr, addr_width, burst, attr) are unchanged. -/
theorem slave_config_invalid_dir_overwrites_dir (fsc : FslEdmaSlaveConfig)
    (cfg : DmaSlaveConfig)
    (h1 : cfg.direction ≠ .dev_to_mem) (h2 : cfg.direction ≠ .mem_to_dev) :
    fsl_edma_slave_config fsc cfg
      = ({ fsc with dir := cfg.direction }, -22) := by
  unfold fsl_edma_slave_config
  rw [if_neg h1, if_neg h2]

/-- Concrete invalid configuration request: memory-to-memory direction. -/
def cfgInvalidEx : DmaSlaveConfig :=
  { direction := .mem_to_mem, src_addr := 4096, dst_addr := 8192,
    src_addr_width := 4, dst_addr_width := 4, src_maxburst := 1,
    dst_maxburst := 1 }

/-- C10, witness: the invalid-direction behaviour at the concrete
request. -/
theorem slave_config_invalid_dir_overwrites_dir_witness :
    cfgInvalidEx.direction ≠ .dev_to_mem
    ∧ fsl_edma_slave_config sgFscEx cfgInvalidEx
        = ({ sgFscEx with dir := .mem_to_mem }, -22) :=
  ⟨by decide,
    slave_config_invalid_dir_overwrites_dir sgFscEx cfgInvalidEx (by decide)
      (by decide)⟩
